import Mathlib

/-!
Shallow embedding of the "Marcianos" browser game (src/script.js, richer
variant, and src/unnamed/part_000, simpler variant).

Modelling conventions:
* JavaScript numbers (coordinates, dimensions, the difficulty factor) are
  modelled as exact rationals `ℚ`; the literal `0.98` is the rational
  `98 / 100`.
* `Math.random()` values are supplied as explicit parameters, constrained
  to `[0, 1)` where a claim depends on that range.
* Rendering calls (canvas painting, border colours, image loading) have no
  effect on the game state and are omitted.
* The single `setTimeout` based self-rescheduling of `timeout` is modelled
  by a `pending` flag on the state: the handler fires only when a timeout
  is pending, firing consumes the pending timeout, and the
  `setTimeout(timeout, ...)` call inside the handler sets it again.
-/

namespace Marcianos

/-- `class Rect` (src/script.js lines 133-153): an origin coordinate pair
`xy` and a dimension pair `wh`. -/
structure Rect where
  xy : ℚ × ℚ
  wh : ℚ × ℚ
deriving DecidableEq

/-- `Rect.hasCollided` (src/script.js lines 147-152): inclusive
point-in-rectangle test
`xy.x >= this.xy.x && xy.x <= this.xy.x+this.wh.w && xy.y >= this.xy.y && xy.y <= this.xy.y+this.wh.h`. -/
def Rect.hasCollided (r : Rect) (p : ℚ × ℚ) : Bool :=
  decide (p.1 ≥ r.xy.1) && decide (p.1 ≤ r.xy.1 + r.wh.1) &&
    decide (p.2 ≥ r.xy.2) && decide (p.2 ≤ r.xy.2 + r.wh.2)

/-- `class Enemy` (src/script.js lines 159-192). The `ctx` field is a
rendering handle with no bearing on game state and is omitted. -/
structure Enemy where
  rect : Rect
  img : String
deriving DecidableEq

/-- `Enemy.of` (src/script.js lines 189-191). -/
def Enemy.of (rect : Rect) (img : String) : Enemy :=
  ⟨rect, img⟩

/-- The fixed asset reference pushed by `timeout` (src/script.js line 278). -/
def enemyImg : String :=
  "img/enemy.png"

/-- The global `game` object (`class Game`, src/script.js lines 10-41)
together with the scheduling status of the spawn timeout.
`points` is `game.player.points`, `state` is the running flag
`game.state`, and `pending` records whether a `setTimeout(timeout, _)`
is outstanding. -/
structure Game where
  enemies : List Enemy
  points : ℕ
  difficulty : ℚ
  state : Bool
  pending : Bool
deriving DecidableEq

/-- The state right after `Game.init` (src/script.js lines 27-40):
no enemies, zero points, `difficulty = 1`, running, and one spawn
timeout scheduled (`setTimeout(timeout, 1000*this.difficulty)`). -/
def Game.init : Game :=
  ⟨[], 0, 1, true, true⟩

/-- Body of `timeout` (src/script.js lines 269-286), parameterised by the
canvas dimensions `W`, `H` and the pair `r` of `Math.random()` draws:
push a fresh 50×50 enemy at `(r.1*(W-50), r.2*(H-50))`, decay the
difficulty when `1000*difficulty*0.98 > 100`, then either reschedule
(fewer than 20 enemies) or set the running flag to false. -/
def timeout (W H : ℚ) (r : ℚ × ℚ) (s : Game) : Game :=
  let rect : Rect := ⟨(r.1 * (W - 50), r.2 * (H - 50)), (50, 50)⟩
  let enemies := s.enemies ++ [Enemy.of rect enemyImg]
  let difficulty :=
    if 1000 * s.difficulty * (98 / 100) > 100 then s.difficulty * (98 / 100)
    else s.difficulty
  if enemies.length < 20 then
    ⟨enemies, s.points, difficulty, s.state, true⟩
  else
    ⟨enemies, s.points, difficulty, false, false⟩

/-- The scan of `mouseclick` (src/script.js lines 250-267): walk the
enemies in order and remove the first one whose rectangle contains the
click point. In the source the removal is `splice(find_first(enemies,
enemy), 1)`; since every pushed `Enemy` is a fresh object, reference
equality makes `find_first` return the scan index, i.e. the element
removed is exactly the first colliding one. `none` means no enemy
collided. -/
def removeFirstHit (p : ℚ × ℚ) : List Enemy → Option (List Enemy)
  | [] => none
  | e :: rest =>
    if e.rect.hasCollided p then some rest
    else (removeFirstHit p rest).map (e :: ·)

/-- `mouseclick` (src/script.js lines 250-267): the loop condition
`i < game.enemies.length && !collided && game.state` makes the handler a
no-op when the running flag is false; otherwise the first colliding enemy
is removed and `game.player.updateScore()` increments the points by one
(src/script.js lines 205-207). -/
def mouseclick (p : ℚ × ℚ) (s : Game) : Game :=
  if s.state then
    match removeFirstHit p s.enemies with
    | some l => ⟨l, s.points + 1, s.difficulty, s.state, s.pending⟩
    | none => s
  else s

/-- `mouseclick` of the simpler variant (src/unnamed/part_000 lines
146-160): same scan over the global `enemies` array, with no running
flag and no score. -/
def mouseclickSimple (p : ℚ × ℚ) : List Enemy → List Enemy
  | [] => []
  | e :: rest =>
    if e.rect.hasCollided p then rest
    else e :: mouseclickSimple p rest

/-- External events delivered by the host event loop: a spawn-timeout
firing (with its two `Math.random()` draws) or a click (with its
canvas-local coordinates). -/
inductive Event where
  | tick (r : ℚ × ℚ)
  | click (p : ℚ × ℚ)
deriving DecidableEq

/-- One event dispatch: a tick runs `timeout` only when a timeout is
actually pending (scheduled), a click runs `mouseclick`. -/
def step (W H : ℚ) (e : Event) (s : Game) : Game :=
  match e with
  | .tick r => if s.pending then timeout W H r s else s
  | .click p => mouseclick p s

/-- Dispatch of a whole sequence of events, in delivery order. -/
def run (W H : ℚ) (evs : List Event) (s : Game) : Game :=
  evs.foldl (fun s e => step W H e s) s

/-- States reachable from `Game.init` under any interleaving of spawn
ticks (with random draws in `[0, 1)`) and clicks. -/
inductive Reachable (W H : ℚ) : Game → Prop
  | init : Reachable W H Game.init
  | tick {s : Game} (r : ℚ × ℚ) (h : Reachable W H s)
      (h1 : 0 ≤ r.1) (h2 : r.1 < 1) (h3 : 0 ≤ r.2) (h4 : r.2 < 1) :
      Reachable W H (step W H (Event.tick r) s)
  | click {s : Game} (p : ℚ × ℚ) (h : Reachable W H s) :
      Reachable W H (step W H (Event.click p) s)

/-- The difficulty-decay step of `timeout` (src/script.js lines 279-280),
expressed on the inter-spawn delay `d = 1000 * difficulty`:
decay by `0.98` exactly when the decayed value exceeds `100`. -/
def decayDelay (d : ℚ) : ℚ :=
  if d * (98 / 100) > 100 then d * (98 / 100) else d

/-- The inter-spawn delay sequence: `d 0 = 1000` (initial difficulty 1,
delay `1000 * difficulty`), each spawn tick applying one decay step. -/
def dseq : ℕ → ℚ
  | 0 => 1000
  | n + 1 => decayDelay (dseq n)

/-! ### Helper lemmas about the hit-test scan -/

/-- Characterisation of an unsuccessful scan: `removeFirstHit` returns
`none` exactly when no enemy in the list collides with the point. -/
lemma removeFirstHit_eq_none (p : ℚ × ℚ) :
    ∀ l : List Enemy,
      removeFirstHit p l = none ↔ ∀ e ∈ l, e.rect.hasCollided p = false := by
  intro l
  induction l with
  | nil => simp [removeFirstHit]
  | cons e rest ih =>
    by_cases he : e.rect.hasCollided p
    · simp [removeFirstHit, he]
    · simp [removeFirstHit, he, Option.map_eq_none, ih,
        Bool.not_eq_true] at *

/-- Characterisation of a successful scan: if nothing in `pre` collides
and `e` does, the scan over `pre ++ e :: post` removes exactly `e`. -/
lemma removeFirstHit_first (p : ℚ × ℚ) :
    ∀ (pre : List Enemy) (e : Enemy) (post : List Enemy),
      (∀ x ∈ pre, x.rect.hasCollided p = false) →
      e.rect.hasCollided p = true →
      removeFirstHit p (pre ++ e :: post) = some (pre ++ post) := by
  intro pre
  induction pre with
  | nil =>
    intro e post _ he
    simp [removeFirstHit, he]
  | cons a pre ih =>
    intro e post hpre he
    have ha : a.rect.hasCollided p = false := hpre a (by simp)
    have := ih e post (fun x hx => hpre x (by simp [hx])) he
    simp [removeFirstHit, ha, this]

/-- A successful scan decomposes the list: `removeFirstHit p l = some l2`
means `l = pre ++ e :: post` with `e` the first colliding enemy and
`l2 = pre ++ post`. -/
lemma removeFirstHit_eq_some (p : ℚ × ℚ) :
    ∀ l l2 : List Enemy,
      removeFirstHit p l = some l2 →
      ∃ pre e post, l = pre ++ e :: post ∧
        (∀ x ∈ pre, x.rect.hasCollided p = false) ∧
        e.rect.hasCollided p = true ∧ l2 = pre ++ post := by
  intro l
  induction l with
  | nil => intro l2 h; simp [removeFirstHit] at h
  | cons e rest ih =>
    intro l2 h
    by_cases he : e.rect.hasCollided p
    · refine ⟨[], e, rest, by simp, by simp, he, ?_⟩
      simp [removeFirstHit, he] at h
      simp [h.symm]
    · simp [removeFirstHit, he, Option.map_eq_some] at h
      obtain ⟨l3, h3, hl2⟩ := h
      obtain ⟨pre, e2, post, hrest, hpre, he2, hl3⟩ := ih l3 h3
      refine ⟨e :: pre, e2, post, by simp [hrest], ?_, he2, by simp [hl2.symm, hl3]⟩
      intro x hx
      rcases List.mem_cons.mp hx with h | h
      · subst h
        exact Bool.eq_false_iff.mpr he
      · exact hpre x h

/-- If some enemy in the list collides, the scan succeeds and removes
exactly one element. -/
lemma removeFirstHit_isSome (p : ℚ × ℚ) :
    ∀ l : List Enemy, (∃ e ∈ l, e.rect.hasCollided p = true) →
      ∃ l2, removeFirstHit p l = some l2 ∧ l2.length + 1 = l.length := by
  intro l
  induction l with
  | nil => rintro ⟨e, he, _⟩; simp at he
  | cons e rest ih =>
    rintro ⟨x, hx, hcol⟩
    by_cases he : e.rect.hasCollided p
    · exact ⟨rest, by simp [removeFirstHit, he], by simp⟩
    · have hxr : x ∈ rest := by
        rcases List.mem_cons.mp hx with h | h
        · exact absurd (h ▸ hcol) (by simpa using he)
        · exact h
      obtain ⟨l2, hl2, hlen⟩ := ih ⟨x, hxr, hcol⟩
      exact ⟨e :: l2, by simp [removeFirstHit, he, hl2], by simp [← hlen]⟩

/-- The simple variant's scan agrees with `removeFirstHit`, returning the
list unchanged when nothing collides. -/
lemma mouseclickSimple_eq_removeFirstHit (p : ℚ × ℚ) :
    ∀ l : List Enemy,
      mouseclickSimple p l = (removeFirstHit p l).getD l := by
  intro l
  induction l with
  | nil => simp [mouseclickSimple, removeFirstHit]
  | cons e rest ih =>
    by_cases he : e.rect.hasCollided p
    · simp [mouseclickSimple, removeFirstHit, he]
    · cases h : removeFirstHit p rest with
      | none => simp [mouseclickSimple, removeFirstHit, he, ih, h]
      | some l2 => simp [mouseclickSimple, removeFirstHit, he, ih, h]

/-! ### Helper lemmas about `mouseclick`, `timeout` and `step` -/

/-- The click handler never changes the running flag. -/
lemma mouseclick_state (p : ℚ × ℚ) (s : Game) : (mouseclick p s).state = s.state := by
  rw [mouseclick]
  split
  · cases hr : removeFirstHit p s.enemies <;> rfl
  · rfl

/-- The click handler never changes the pending-timeout status. -/
lemma mouseclick_pending (p : ℚ × ℚ) (s : Game) :
    (mouseclick p s).pending = s.pending := by
  rw [mouseclick]
  split
  · cases hr : removeFirstHit p s.enemies <;> rfl
  · rfl

/-- The click handler never changes the difficulty. -/
lemma mouseclick_difficulty (p : ℚ × ℚ) (s : Game) :
    (mouseclick p s).difficulty = s.difficulty := by
  rw [mouseclick]
  split
  · cases hr : removeFirstHit p s.enemies <;> rfl
  · rfl

/-- Every enemy surviving a click was already present before it. -/
lemma mouseclick_enemies_subset (p : ℚ × ℚ) (s : Game) :
    ∀ e ∈ (mouseclick p s).enemies, e ∈ s.enemies := by
  intro e he
  by_cases hst : s.state = true
  · cases hr : removeFirstHit p s.enemies with
    | none => simpa [mouseclick, hst, hr] using he
    | some l =>
      obtain ⟨pre, e2, post, hsp, _, _, hl⟩ := removeFirstHit_eq_some p s.enemies l hr
      rw [hsp]
      simp [mouseclick, hst, hr, hl] at he
      rcases he with h | h
      · exact List.mem_append_left _ h
      · exact List.mem_append_right _ (List.mem_cons_of_mem _ h)
  · simpa [mouseclick, hst] using he

/-- A click never increases the number of live enemies. -/
lemma mouseclick_length_le (p : ℚ × ℚ) (s : Game) :
    (mouseclick p s).enemies.length ≤ s.enemies.length := by
  by_cases hst : s.state = true
  · cases hr : removeFirstHit p s.enemies with
    | none => simp [mouseclick, hst, hr]
    | some l =>
      obtain ⟨pre, e2, post, hsp, _, _, hl⟩ := removeFirstHit_eq_some p s.enemies l hr
      have hml : (mouseclick p s).enemies = l := by simp [mouseclick, hst, hr]
      rw [hml, hl, hsp]
      simp only [List.length_append, List.length_cons]
      omega
  · simp [mouseclick, hst]

/-- The spawn handler always appends exactly the freshly built enemy. -/
lemma timeout_enemies (W H : ℚ) (r : ℚ × ℚ) (s : Game) :
    (timeout W H r s).enemies =
      s.enemies ++ [Enemy.of ⟨(r.1 * (W - 50), r.2 * (H - 50)), (50, 50)⟩ enemyImg] := by
  dsimp only [timeout]
  split <;> rfl

/-- The spawn handler's difficulty update, in isolation. -/
lemma timeout_difficulty (W H : ℚ) (r : ℚ × ℚ) (s : Game) :
    (timeout W H r s).difficulty =
      if 1000 * s.difficulty * (98 / 100) > 100 then s.difficulty * (98 / 100)
      else s.difficulty := by
  dsimp only [timeout]
  split <;> rfl

/-- No event handler ever turns the running flag back on. -/
lemma step_state_false (W H : ℚ) (e : Event) (s : Game) (h : s.state = false) :
    (step W H e s).state = false := by
  cases e with
  | tick r =>
    by_cases hp : s.pending = true
    · simp only [step, if_pos hp]
      dsimp only [timeout]
      split
      · exact h
      · rfl
    · simpa [step, hp] using h
  | click p =>
    simp only [step]
    rw [mouseclick_state]
    exact h

/-- Running any event sequence from a non-running state keeps it
non-running. -/
lemma run_state_false (W H : ℚ) (evs : List Event) :
    ∀ s : Game, s.state = false → (run W H evs s).state = false := by
  induction evs with
  | nil => intro s h; exact h
  | cons e evs ih =>
    intro s h
    simp only [run, List.foldl_cons] at *
    exact ih _ (step_state_false W H e s h)

/-- The reachability invariant: at most 20 live enemies, a pending spawn
timeout implies strictly fewer than 20 enemies, and a non-running state
has no pending timeout. -/
lemma reachable_invariant (W H : ℚ) (s : Game) (hs : Reachable W H s) :
    s.enemies.length ≤ 20 ∧ (s.pending = true → s.enemies.length < 20) ∧
      (s.state = false → s.pending = false) := by
  induction hs with
  | init => simp [Game.init]
  | @tick s r h h1 h2 h3 h4 ih =>
    obtain ⟨ih1, ih2, ih3⟩ := ih
    by_cases hp : s.pending = true
    · have hlt := ih2 hp
      have hst : s.state = true := by
        cases hc : s.state with
        | false => rw [ih3 hc] at hp; cases hp
        | true => rfl
      simp only [step, if_pos hp]
      by_cases h20 :
          (s.enemies ++
            [Enemy.of ⟨(r.1 * (W - 50), r.2 * (H - 50)), (50, 50)⟩ enemyImg]).length < 20
      · dsimp only [timeout]
        rw [if_pos h20]
        refine ⟨Nat.le_of_lt h20, fun _ => h20, ?_⟩
        intro hsf
        have hsf2 : s.state = false := hsf
        rw [hst] at hsf2
        exact Bool.noConfusion hsf2
      · dsimp only [timeout]
        rw [if_neg h20]
        refine ⟨?_, ?_, fun _ => rfl⟩
        · have h1 : s.enemies.length + 1 ≤ 20 := hlt
          simpa using h1
        · intro hpend
          exact Bool.noConfusion (show false = true from hpend)
    · simp only [step, if_neg hp]
      exact ⟨ih1, ih2, ih3⟩
  | @click s p h ih =>
    obtain ⟨ih1, ih2, ih3⟩ := ih
    simp only [step]
    refine ⟨le_trans (mouseclick_length_le p s) ih1, ?_, ?_⟩
    · intro hpend
      rw [mouseclick_pending] at hpend
      exact lt_of_le_of_lt (mouseclick_length_le p s) (ih2 hpend)
    · intro hsf
      rw [mouseclick_state] at hsf
      rw [mouseclick_pending]
      exact ih3 hsf

/-- Iterating the spawn tick with random draws `(0, 0)` stays within the
reachable states. -/
lemma reachable_tick_iter (W H : ℚ) :
    ∀ n : ℕ, Reachable W H ((step W H (Event.tick (0, 0)))^[n] Game.init) := by
  intro n
  induction n with
  | zero => exact Reachable.init
  | succ n ih =>
    rw [Function.iterate_succ_apply']
    exact Reachable.tick (0, 0) ih (by norm_num) (by norm_num) (by norm_num) (by norm_num)

/-! ### Helper lemmas about the delay sequence -/

/-- Every delay in the sequence stays strictly above the floor of 100. -/
lemma dseq_gt_100 : ∀ n, (100 : ℚ) < dseq n := by
  intro n
  induction n with
  | zero => norm_num [dseq]
  | succ n ih =>
    rw [dseq, decayDelay]
    split
    · next hc => exact hc
    · exact ih

/-- The delay sequence is non-increasing. -/
lemma dseq_antitone_step : ∀ n, dseq (n + 1) ≤ dseq n := by
  intro n
  have h := dseq_gt_100 n
  rw [dseq, decayDelay]
  split
  · linarith
  · exact le_refl _

/-- Once the decayed value reaches the floor, the sequence is constant
from that index on. -/
lemma dseq_stable :
    ∀ n, dseq n * (98 / 100) ≤ 100 → ∀ m, n ≤ m → dseq m = dseq n := by
  intro n h m hm
  induction m with
  | zero =>
    have : n = 0 := Nat.le_zero.mp hm
    rw [this]
  | succ m ih =>
    rcases Nat.lt_or_ge n (m + 1) with hlt | hge
    · have hm2 : n ≤ m := Nat.lt_succ_iff.mp hlt
      have heq := ih hm2
      rw [dseq, decayDelay, heq, if_neg (not_lt.mpr h)]
    · have : n = m + 1 := le_antisymm hm hge
      rw [this]

/-! ### Concrete states used by witnesses and counterexamples -/

/-- A 50×50 enemy at the origin. -/
def e0 : Enemy := Enemy.of ⟨(0, 0), (50, 50)⟩ enemyImg

/-- A running game one spawn away from the 20-enemy cap. -/
def s19 : Game := ⟨List.replicate 19 e0, 0, 1, true, true⟩

/-- An ended game with no enemies and no pending timeout. -/
def sDead : Game := ⟨[], 0, 1, false, false⟩

/-- An ended game holding the 20 enemies that triggered game over. -/
def sEnded : Game := ⟨List.replicate 20 e0, 5, 1, false, false⟩

/-- A running game with a single enemy at the origin. -/
def sOne : Game := ⟨[e0], 0, 1, true, true⟩

/-! ### Claims -/

/-- C1: a spawn tick that brings the live enemy count to 20 sets the
running flag to false and does not reschedule the timeout; and the
transition is one-way: from any state with the flag false, dispatching
any further sequence of spawn ticks and clicks leaves the flag false. -/
theorem C1_game_over_one_way :
    (∀ (W H : ℚ) (r : ℚ × ℚ) (s : Game),
        20 ≤ (timeout W H r s).enemies.length →
        (timeout W H r s).state = false ∧ (timeout W H r s).pending = false) ∧
    (∀ (W H : ℚ) (evs : List Event) (s : Game),
        s.state = false → (run W H evs s).state = false) := by
  constructor
  · intro W H r s h20
    have hlen : ¬ ((s.enemies ++
        [Enemy.of ⟨(r.1 * (W - 50), r.2 * (H - 50)), (50, 50)⟩ enemyImg]).length < 20) := by
      rw [timeout_enemies] at h20
      omega
    constructor
    · dsimp only [timeout]
      rw [if_neg hlen]
    · dsimp only [timeout]
      rw [if_neg hlen]
  · intro W H evs s h
    exact run_state_false W H evs s h

/-- Witness for C1 at a concrete 19-enemy state and a concrete ended
state. -/
theorem C1_game_over_one_way_witness :
    20 ≤ (timeout 100 100 (0, 0) s19).enemies.length ∧
      (timeout 100 100 (0, 0) s19).state = false ∧
      (timeout 100 100 (0, 0) s19).pending = false ∧
      (run 100 100 [Event.click (25, 25), Event.tick (0, 0)] sEnded).state = false := by
  have h20 : 20 ≤ (timeout 100 100 (0, 0) s19).enemies.length := by
    rw [timeout_enemies]
    simp [s19]
  exact ⟨h20, (C1_game_over_one_way.1 100 100 (0, 0) s19 h20).1,
    (C1_game_over_one_way.1 100 100 (0, 0) s19 h20).2,
    C1_game_over_one_way.2 100 100 _ sEnded rfl⟩

/-- C2, counterexample: the claim says a spawn attempt on a non-running
arena leaves the whole state unchanged, but the `timeout` handler has no
running-flag guard: invoked on the ended state `sDead` it still appends
the new enemy. -/
theorem C2_counterexample_spawn_after_end :
    sDead.state = false ∧ timeout 100 100 (0, 0) sDead ≠ sDead := by
  refine ⟨rfl, fun h => ?_⟩
  have hlen := congrArg (fun g : Game => g.enemies.length) h
  simp only [timeout_enemies] at hlen
  simp [sDead] at hlen

/-- C2, amended: in every reachable non-running state no spawn timeout is
pending, and a tick delivered with no pending timeout leaves the state
unchanged — so spawn attempts after game over are dropped by the
scheduler, not by a guard in the handler itself. -/
theorem C2_no_spawn_delivered_after_end :
    (∀ (W H : ℚ) (s : Game), Reachable W H s → s.state = false →
        s.pending = false) ∧
    (∀ (W H : ℚ) (r : ℚ × ℚ) (s : Game), s.pending = false →
        step W H (Event.tick r) s = s) := by
  constructor
  · intro W H s hs hsf
    exact (reachable_invariant W H s hs).2.2 hsf
  · intro W H r s hp
    simp [step, hp]

/-- Witness for the amended C2: the state reached by 20 spawn ticks has
ended, its pending flag is computed to be false through the theorem, and
a tick on the concrete ended state `sDead` is the identity. -/
theorem C2_no_spawn_delivered_after_end_witness :
    ((step 100 100 (Event.tick (0, 0)))^[20] Game.init).pending = false ∧
      step 100 100 (Event.tick (0, 0)) sDead = sDead := by
  constructor
  · exact C2_no_spawn_delivered_after_end.1 100 100 _
      (reachable_tick_iter 100 100 20) (by decide)
  · exact C2_no_spawn_delivered_after_end.2 100 100 (0, 0) sDead rfl

/-- C3: with the arena running, a click that collides with nothing changes
nothing, and a click whose first colliding enemy (in spawn order) is `e`
removes exactly `e`, leaving all other enemies in place in their original
relative order — at most one removal per click. -/
theorem C3_first_match_removal (p : ℚ × ℚ) (s : Game) (hrun : s.state = true) :
    ((∀ e ∈ s.enemies, e.rect.hasCollided p = false) → mouseclick p s = s) ∧
    (∀ (pre : List Enemy) (e : Enemy) (post : List Enemy),
        s.enemies = pre ++ e :: post →
        (∀ x ∈ pre, x.rect.hasCollided p = false) →
        e.rect.hasCollided p = true →
        (mouseclick p s).enemies = pre ++ post) := by
  constructor
  · intro hnone
    have h := (removeFirstHit_eq_none p s.enemies).mpr hnone
    simp [mouseclick, hrun, h]
  · intro pre e post hsplit hpre he
    have h := removeFirstHit_first p pre e post hpre he
    rw [← hsplit] at h
    simp [mouseclick, hrun, h]

/-- Witness for C3: clicking inside the single enemy of `sOne` removes
it. -/
theorem C3_first_match_removal_witness :
    (mouseclick (10, 10) sOne).enemies = [] := by
  have hcol : e0.rect.hasCollided (10, 10) = true := by
    norm_num [e0, Enemy.of, Rect.hasCollided]
  have h := (C3_first_match_removal (10, 10) sOne rfl).2 [] e0 [] rfl
    (by simp) hcol
  simpa using h

/-- C4: the point-in-rectangle test is inclusive on both ends of both
axes; in particular the exact corner of a rectangle with non-negative
dimensions is a hit, and the point one unit left of the corner is not. -/
theorem C4_inclusive_boundary :
    (∀ (r : Rect) (p : ℚ × ℚ),
        r.hasCollided p = true ↔
          r.xy.1 ≤ p.1 ∧ p.1 ≤ r.xy.1 + r.wh.1 ∧
            r.xy.2 ≤ p.2 ∧ p.2 ≤ r.xy.2 + r.wh.2) ∧
    (∀ r : Rect, 0 ≤ r.wh.1 → 0 ≤ r.wh.2 → r.hasCollided r.xy = true) ∧
    (∀ r : Rect, r.hasCollided (r.xy.1 - 1, r.xy.2) = false) := by
  have hiff : ∀ (r : Rect) (p : ℚ × ℚ),
      r.hasCollided p = true ↔
        r.xy.1 ≤ p.1 ∧ p.1 ≤ r.xy.1 + r.wh.1 ∧
          r.xy.2 ≤ p.2 ∧ p.2 ≤ r.xy.2 + r.wh.2 := by
    intro r p
    simp [Rect.hasCollided, and_assoc, ge_iff_le]
  refine ⟨hiff, ?_, ?_⟩
  · intro r hw hh
    exact (hiff r r.xy).mpr ⟨le_refl _, by linarith, le_refl _, by linarith⟩
  · intro r
    rw [Bool.eq_false_iff]
    intro hcol
    have h1 : r.xy.1 ≤ r.xy.1 - 1 := ((hiff r (r.xy.1 - 1, r.xy.2)).mp hcol).1
    linarith

/-- Witness for C4: the corner of a concrete 50×50 rectangle is a hit. -/
theorem C4_inclusive_boundary_witness :
    (0 : ℚ) ≤ 50 ∧ (Rect.mk (100, 100) (50, 50)).hasCollided (100, 100) = true :=
  ⟨by norm_num,
    C4_inclusive_boundary.2.1 ⟨(100, 100), (50, 50)⟩ (by norm_num) (by norm_num)⟩

/-- C5: with the arena running, a click hitting some enemy removes exactly
one enemy and adds exactly one point, leaving difficulty, running flag and
pending timeout unchanged, while a click hitting no enemy leaves the whole
state unchanged. -/
theorem C5_hit_effect (p : ℚ × ℚ) (s : Game) (hrun : s.state = true) :
    ((∃ e ∈ s.enemies, e.rect.hasCollided p = true) →
        (mouseclick p s).enemies.length + 1 = s.enemies.length ∧
        (mouseclick p s).points = s.points + 1 ∧
        (mouseclick p s).difficulty = s.difficulty ∧
        (mouseclick p s).state = s.state ∧
        (mouseclick p s).pending = s.pending) ∧
    ((∀ e ∈ s.enemies, e.rect.hasCollided p = false) → mouseclick p s = s) := by
  constructor
  · intro hex
    obtain ⟨l2, hl2, hlen⟩ := removeFirstHit_isSome p s.enemies hex
    simp [mouseclick, hrun, hl2, hlen]
  · intro hnone
    have h := (removeFirstHit_eq_none p s.enemies).mpr hnone
    simp [mouseclick, hrun, h]

/-- Witness for C5: the hit on `sOne` scores exactly one point. -/
theorem C5_hit_effect_witness :
    (mouseclick (10, 10) sOne).points = sOne.points + 1 := by
  have hcol : e0.rect.hasCollided (10, 10) = true := by
    norm_num [e0, Enemy.of, Rect.hasCollided]
  exact ((C5_hit_effect (10, 10) sOne rfl).1 ⟨e0, by simp [sOne], hcol⟩).2.1

/-- C6: the inter-spawn delay starts at `1000`, each spawn tick updates it
by exactly the decay step `d ↦ if d*0.98 > 100 then d*0.98 else d`, the
resulting sequence is non-increasing, stays strictly above the floor of
100 time-units, and stops changing permanently once `d*0.98 ≤ 100`. -/
theorem C6_delay_recurrence :
    (1000 * Game.init.difficulty = dseq 0) ∧
    (∀ (W H : ℚ) (r : ℚ × ℚ) (s : Game),
        1000 * (timeout W H r s).difficulty = decayDelay (1000 * s.difficulty)) ∧
    (∀ n, dseq (n + 1) ≤ dseq n) ∧
    (∀ n, (100 : ℚ) < dseq n) ∧
    (∀ n, dseq n * (98 / 100) ≤ 100 → ∀ m, n ≤ m → dseq m = dseq n) := by
  refine ⟨by norm_num [Game.init, dseq], ?_, dseq_antitone_step, dseq_gt_100,
    dseq_stable⟩
  intro W H r s
  rw [timeout_difficulty, decayDelay]
  split_ifs with h <;> ring

set_option maxRecDepth 4000 in
/-- Witness for C6: the decayed delay first reaches the floor at index
113, and from there the sequence is constant. -/
theorem C6_delay_recurrence_witness :
    dseq 113 * (98 / 100) ≤ 100 ∧ dseq 115 = dseq 113 := by
  have h : dseq 113 * (98 / 100) ≤ 100 := by norm_num [dseq, decayDelay]
  exact ⟨h, C6_delay_recurrence.2.2.2.2 113 h 115 (by norm_num)⟩

/-- C7: for canvas dimensions at least 50×50, every enemy alive in any
reachable state has its 50×50 rectangle fully inside the canvas:
`0 ≤ x ≤ W-50` and `0 ≤ y ≤ H-50`. -/
theorem C7_targets_inside_canvas (W H : ℚ) (hW : 50 ≤ W) (hH : 50 ≤ H)
    (s : Game) (hs : Reachable W H s) :
    ∀ e ∈ s.enemies, 0 ≤ e.rect.xy.1 ∧ e.rect.xy.1 ≤ W - 50 ∧
      0 ≤ e.rect.xy.2 ∧ e.rect.xy.2 ≤ H - 50 := by
  induction hs with
  | init => intro e he; simp [Game.init] at he
  | @tick s r h h1 h2 h3 h4 ih =>
    intro e he
    simp only [step] at he
    by_cases hp : s.pending = true
    · rw [if_pos hp, timeout_enemies] at he
      rcases List.mem_append.mp he with hm | hm
      · exact ih e hm
      · have he2 : e = Enemy.of ⟨(r.1 * (W - 50), r.2 * (H - 50)), (50, 50)⟩ enemyImg := by
          simpa using hm
        subst he2
        refine ⟨mul_nonneg h1 (by linarith), ?_, mul_nonneg h3 (by linarith), ?_⟩
        · calc r.1 * (W - 50) ≤ 1 * (W - 50) :=
              mul_le_mul_of_nonneg_right (le_of_lt h2) (by linarith)
            _ = W - 50 := one_mul _
        · calc r.2 * (H - 50) ≤ 1 * (H - 50) :=
              mul_le_mul_of_nonneg_right (le_of_lt h4) (by linarith)
            _ = H - 50 := one_mul _
    · rw [if_neg hp] at he
      exact ih e he
  | @click s p h ih =>
    intro e he
    simp only [step] at he
    exact ih e (mouseclick_enemies_subset p s e he)

/-- The enemy spawned by the first tick on a 100×100 canvas with both
random draws equal to `1/2`. -/
def spawnedEnemy : Enemy :=
  Enemy.of ⟨((1 / 2 : ℚ) * (100 - 50), (1 / 2 : ℚ) * (100 - 50)), (50, 50)⟩ enemyImg

/-- Witness for C7: the enemy spawned by the first tick on a 100×100
canvas lies inside the canvas. -/
theorem C7_targets_inside_canvas_witness :
    0 ≤ spawnedEnemy.rect.xy.1 ∧ spawnedEnemy.rect.xy.1 ≤ (100 : ℚ) - 50 ∧
      0 ≤ spawnedEnemy.rect.xy.2 ∧ spawnedEnemy.rect.xy.2 ≤ (100 : ℚ) - 50 :=
  C7_targets_inside_canvas 100 100 (by norm_num) (by norm_num) _
    (Reachable.tick (1 / 2, 1 / 2) Reachable.init (by norm_num) (by norm_num)
      (by norm_num) (by norm_num))
    spawnedEnemy
    (by
      have hp : Game.init.pending = true := rfl
      simp only [step, hp, if_true, timeout_enemies]
      simp [Game.init, spawnedEnemy])

/-- C8: a click delivered while the arena is not running changes nothing
at all. -/
theorem C8_click_ignored_after_end (p : ℚ × ℚ) (s : Game)
    (h : s.state = false) : mouseclick p s = s := by
  simp [mouseclick, h]

/-- Witness for C8 on the concrete ended state `sDead`. -/
theorem C8_click_ignored_after_end_witness :
    mouseclick (25, 25) sDead = sDead :=
  C8_click_ignored_after_end (25, 25) sDead rfl

/-- C9: while the richer variant is running, its click handler computes
exactly the same resulting enemy list as the simpler variant's click
handler on the same list — the simpler variant only lacks score,
difficulty and game-over handling. -/
theorem C9_variants_agree (p : ℚ × ℚ) (s : Game) (hrun : s.state = true) :
    (mouseclick p s).enemies = mouseclickSimple p s.enemies := by
  rw [mouseclickSimple_eq_removeFirstHit]
  cases h : removeFirstHit p s.enemies with
  | none => simp [mouseclick, hrun, h]
  | some l => simp [mouseclick, hrun, h]

/-- Witness for C9 at the concrete single-enemy state `sOne`. -/
theorem C9_variants_agree_witness :
    (mouseclick (10, 10) sOne).enemies = mouseclickSimple (10, 10) sOne.enemies :=
  C9_variants_agree (10, 10) sOne rfl

/-- C10 (implicit): the live enemy count never exceeds 20 in any state
reachable from the initial one under any interleaving of spawn ticks and
clicks. -/
theorem C10_count_never_exceeds_20 (W H : ℚ) (s : Game)
    (hs : Reachable W H s) : s.enemies.length ≤ 20 :=
  (reachable_invariant W H s hs).1

/-- Witness for C10 at the state reached by 20 consecutive spawn ticks. -/
theorem C10_count_never_exceeds_20_witness :
    ((step 100 100 (Event.tick (0, 0)))^[20] Game.init).enemies.length ≤ 20 :=
  C10_count_never_exceeds_20 100 100 _ (reachable_tick_iter 100 100 20)

end Marcianos
